import Mathlib

/-!
Shallow embedding of the Solium lint engine (lib/solium.js, the main Solium
object) together with the autofix conflict-resolution engine and the AST
traversal driver, with theorems settling the frozen claims about them.

Conventions of the embedding:
* JavaScript values that may be absent or of the wrong runtime type are
  modelled with `Option` / dedicated inductives; JS exceptions are modelled
  with `Except String`.
* The module-level mutable variables of the Solium IIFE (`messages`,
  `sourceCodeText`, `currentConfig`) become an explicit `SoliumState` that is
  threaded through `lint` and returned alongside the result (also on the
  throwing paths, mirroring what the module variables hold after a throw).
* The external parser and the rule handlers are collaborators: `lint` is
  parameterised by the parse outcome and by the sequence of `report` /
  `reportInternal` calls the subscribed handlers make during traversal.
* Numbers that the code only adds/compares (`line`, `column`) are `Int`;
  text offsets of autofix edits are `Nat`.
-/

deriving instance DecidableEq for Except

namespace Solium

/-- An AST node as far as the engine inspects it: a type tag and a source
position. `astUtils.getLine`/`getColumn` resolve a node to its starting
line/column; the node carries them directly here. -/
structure ASTNode where
  type : String
  line : Int
  column : Int
  deriving DecidableEq

/-- The optional `location` attribute of a reported error object. JS
distinguishes an absent attribute from a present one, hence the `Option`
fields. -/
structure Location where
  line : Option Int := none
  column : Option Int := none
  deriving DecidableEq

/-- A single autofix edit over the original source text: replace the
half-open character range [startOffset, endOffset) by `text`. -/
structure Edit where
  startOffset : Nat
  endOffset : Nat
  text : String
  deriving DecidableEq

/-- The `fix` attribute a rule may attach to a reported error: either a
function (modelled by the list of edits it returns when invoked with a
`RuleFixer`), or a value of some other runtime type. -/
inductive FixAttr where
  | fn (edits : List Edit)
  | notFunction
  deriving DecidableEq

/-- The argument object of `Solium.report` / `Solium.reportInternal` as the
code reads it: every attribute may be absent. `ruleMetaFixable` models the
truthiness of `error.ruleMeta.fixable` (the rule declared `meta.fixable`). -/
structure ErrorObject where
  ruleName : Option String := none
  ruleId : Option String := none
  type : Option String := none
  node : Option ASTNode := none
  message : Option String := none
  location : Option Location := none
  fix : Option FixAttr := none
  ruleMetaFixable : Bool := false
  deriving DecidableEq

/-- A JS argument that is either a strict object (`jsUtils.isStrictlyObject`
holds) or anything else (number, string, null, array, ...). -/
inductive ReportArg where
  | obj (e : ErrorObject)
  | nonObject
  deriving DecidableEq

/-- An entry of the `messages` buffer. `report` pushes entries with
`internal := false` (the JS object simply lacks the attribute, which is
falsy); `reportInternal` pushes entries with `internal := true` and the
sentinel position. `fix` holds the edits returned by the rule's fix
function, when one was accepted. -/
structure Message where
  ruleName : Option String := none
  type : Option String := none
  message : Option String := none
  line : Int := 0
  column : Int := 0
  internal : Bool := false
  fix : Option (List Edit) := none
  deriving DecidableEq

/-- JS string concatenation displays an absent value as "undefined". -/
def jsDisplay (o : Option String) : String := o.getD "undefined"

/-- Body of `Solium.reportInternal` after its object check: push the issue
with `internal = true` and the sentinel position `line = -1, column = -1`
(`Object.assign (issue, { internal: true, line: -1, column: -1 })`).
Internal issues produced by the engine never carry a fix (spec assumption),
so the pushed entry has no edits. -/
def pushInternal (issue : ErrorObject) (messages : List Message) : List Message :=
  messages ++ [{ ruleName := issue.ruleName, type := issue.type, message := issue.message,
                 line := -1, column := -1, internal := true, fix := none }]

/-- `Solium.reportInternal (issue)`: throws on a non-object argument,
otherwise pushes the issue with the internal flag and sentinel position. -/
def reportInternal (issue : ReportArg) (messages : List Message) :
    Except String (List Message) :=
  match issue with
  | .nonObject => .error "Invalid error object"
  | .obj e => .ok (pushInternal e messages)

/-- The internal warning `Solium.report` emits when a rule supplies a fix
but its meta lacks the `fixable` property. -/
def fixIgnoredIssue (ruleName : Option String) : ErrorObject :=
  { type := some "warning",
    message := some ("[WARNING] The fixes supplied by rule \"" ++ jsDisplay ruleName ++
      "\" will be ignored since its \"meta\" doesn\x27t contain the \"fixable\" property.") }

/-- The `line` attribute computed by `Solium.report`:
`error.location.line || astUtils.getLine (error.node)` (so an explicit
`line: 0` is falsy and falls back to the node's line). -/
def reportLine (loc : Location) (node : ASTNode) : Int :=
  match loc.line with
  | some l => if l = 0 then node.line else l
  | none => node.line

/-- The `column` attribute computed by `Solium.report`:
`(error.location.column === 0) ? 0 : error.location.column || astUtils.getColumn (error.node)`
(an explicit `column: 0` is honoured, unlike `line: 0`). -/
def reportColumn (loc : Location) (node : ASTNode) : Int :=
  if loc.column = some 0 then 0
  else
    match loc.column with
    | some c => c
    | none => node.column

/-- `Solium.report (error)`: validates the error object (strict object, a
valid AST node, a non-empty string message), derives `line`/`column`,
handles a supplied fix (ignored with an internal warning when the rule's
meta lacks `fixable`; a non-function fix throws; otherwise the fix function
is invoked and its edits attached), and pushes the message.
`astUtils.isASTNode` is modelled as presence of the node (astUtils is not
part of the embedded sources; per the spec a node reference with a type tag
and a span is what is required). -/
def report (arg : ReportArg) (messages : List Message) : Except String (List Message) :=
  match arg with
  | .nonObject => .error "Invalid error object"
  | .obj e =>
    match e.node with
    | none => .error ("Rule " ++ jsDisplay e.ruleId ++ " does not provide a valid AST node")
    | some node =>
      match e.message with
      | none =>
        .error ("Rule " ++ jsDisplay e.ruleId ++
          " flags a node but doesn\x27t provide an error description")
      | some msgText =>
        if msgText = "" then
          .error ("Rule " ++ jsDisplay e.ruleId ++
            " flags a node but doesn\x27t provide an error description")
        else
          let loc := e.location.getD {}
          let base : Message :=
            { ruleName := e.ruleName, type := e.type, message := some msgText,
              line := reportLine loc node, column := reportColumn loc node,
              internal := false, fix := none }
          match e.fix with
          | none => .ok (messages ++ [base])
          | some f =>
            if e.ruleMetaFixable = false then
              .ok (pushInternal (fixIgnoredIssue e.ruleName) messages ++ [base])
            else
              match f with
              | .notFunction =>
                .error ("Rule \"" ++ jsDisplay e.ruleName ++
                  "\": Attribute \"fix\" (reported as part of the error \"" ++ msgText ++
                  "\") must be a function.")
              | .fn edits => .ok (messages ++ [{ base with fix := some edits }])

/-- The options entry of one rule in the effective configuration
(`currentConfig.rules [name]`): the option values passed via soliumrc, when
any were passed. The option values themselves are opaque to the engine; they
are only handed to the schema validator. -/
structure RuleConfig where
  options : Option (List String) := none
  deriving DecidableEq

/-- Session-level options of a configuration (`config.options`). -/
structure SessionOptions where
  returnInternalIssues : Bool := false
  deriving DecidableEq

/-- A user configuration object that passed `configInspector.isValid`.
`deprecatedFormat` is the verdict of `configInspector.isFormatDeprecated`
(the config is in the legacy v0 shape); `customRulesFilename` is the
`custom-rules-filename` attribute. Rule entries are kept in key order, as
iterated by `Object.keys`. -/
structure Config where
  rules : List (String × RuleConfig) := []
  options : Option SessionOptions := none
  customRulesFilename : Option String := none
  deprecatedFormat : Bool := false
  deriving DecidableEq

/-- A JS argument that either passed `configInspector.isValid` or did not.
Modelled from the spec: config-inspector is not part of the embedded
sources; per the spec it rejects a raw config lacking a rules mapping. -/
inductive ConfigArg where
  | valid (c : Config)
  | invalid
  deriving DecidableEq

/-- A rule module as the lint loop inspects it. `validRuleObject` is the
verdict of `ruleInspector.isAValidRuleObject` on the module; `optionsOk` is
`ruleInspector.areValidOptionsPassed (·, rule.meta.schema)` (rule-inspector
is not part of the embedded sources, so the two validator verdicts are kept
abstract); `deprecated` and `replacedBy` are `meta.deprecated` and
`meta.docs.replacedBy`. The module's `verify` installs subscriptions, whose
effect during traversal is the event list `lint` is parameterised by. -/
structure Rule where
  validRuleObject : Bool := true
  optionsOk : List String → Bool := fun _ => true
  deprecated : Bool := false
  replacedBy : Option (List String) := none

/-- The rule registry, `rules.get`: resolves a rule name to its module
(`none` models `undefined` for an unknown name). -/
abbrev Registry := String → Option Rule

/-- Modelled from the spec: `rules.load` / `rules.loadUsingDeprecatedConfigFormat`
(the rules module is not part of the embedded sources) resolve the
configuration's rule entries into the effective name-to-configuration
mapping assigned to `currentConfig.rules`; modelled as the configuration's
own (already normalised) rule entries. -/
def rulesLoad (c : Config) : List (String × RuleConfig) := c.rules

/-- The module-level variables of the Solium IIFE. -/
structure SoliumState where
  messages : List Message
  sourceCodeText : String
  currentConfig : Option Config
  deriving DecidableEq

/-- The variables' values when the module is first evaluated
(`messages = [], sourceCodeText = '', currentConfig = null`). -/
def initialState : SoliumState :=
  { messages := [], sourceCodeText := "", currentConfig := none }

/-- `Solium.reset`: reinitialises all module-level state. (It also removes
all event listeners; subscriptions are not part of the state, their effect
being the traversal event parameter of `lint`.) -/
def reset (_st : SoliumState) : SoliumState :=
  { messages := [], sourceCodeText := "", currentConfig := some {} }

/-- The `sourceCode` argument of `lint`: a string, a Buffer (carrying the
string its `toString ()` yields), or a value of any other runtime type. -/
inductive SourceInput where
  | str (s : String)
  | buffer (s : String)
  | nonStringValue
  deriving DecidableEq

/-- Lines 50-52 of lint: a Buffer argument is decoded to its string; a
non-string, non-Buffer value stays invalid (`none`). -/
def decodeSource : SourceInput → Option String
  | .str s => some s
  | .buffer s => some s
  | .nonStringValue => none

/-- The string the decoded `sourceCode` denotes (used by `lintAndFix` after
its own Buffer decoding; a non-string value would already have been rejected
by `lint` before any use of this). -/
def sourceText : SourceInput → String
  | .str s => s
  | .buffer s => s
  | .nonStringValue => ""

/-- One call a subscribed rule handler makes while the AST traversal runs:
either `context.report` (forwarding to `Solium.report`) or
`Solium.reportInternal`. -/
inductive TraversalEvent where
  | rep (arg : ReportArg)
  | repInternal (arg : ReportArg)

/-- The deprecation notice for a deprecated rule, including the
`replacedBy` suffix when `meta.docs.replacedBy` is present (JS truthiness:
an empty list is truthy and still appends the suffix). -/
def deprecationNoticeText (name : String) (replacedBy : Option (List String)) : String :=
  let base := "[DEPRECATED] Rule \"" ++ name ++ "\" is deprecated."
  match replacedBy with
  | some l =>
    base ++ " Please use " ++
      String.intercalate ", " (l.map (fun rn => "\"" ++ rn ++ "\"")) ++ " instead."
  | none => base

/-- The error text thrown for an invalid (or unknown) rule module. -/
def ruleDefErrorText (name : String) : String :=
  "A valid definition for rule \x27" ++ name ++ "\x27 was not provided."

/-- The error text thrown for options failing the rule's schema. -/
def ruleOptionsErrorText (name : String) : String :=
  "Invalid arguments were passed for rule \"" ++ name ++ "\"."

/-- `currentRuleConfig.options && !ruleInspector.areValidOptionsPassed (...)`:
options were passed and the rule's schema rejects them. -/
def optionsFail (rule : Rule) (rc : RuleConfig) : Bool :=
  match rc.options with
  | some opts => !(rule.optionsOk opts)
  | none => false

/-- The body of the per-rule validation loop of `lint` (lines 90-117) for a
single entry: resolve the module, throw on an invalid module or on options
failing its schema, report the deprecation notice for a deprecated rule, and
finally call the rule's `verify` (whose subscriptions surface as traversal
events). -/
def checkRule (reg : Registry) (msgs : List Message) (entry : String × RuleConfig) :
    Except String (List Message) :=
  match reg entry.1 with
  | none => .error (ruleDefErrorText entry.1)
  | some rule =>
    if !rule.validRuleObject then .error (ruleDefErrorText entry.1)
    else if optionsFail rule entry.2 then .error (ruleOptionsErrorText entry.1)
    else if rule.deprecated then
      .ok (pushInternal
        { type := some "warning",
          message := some (deprecationNoticeText entry.1 rule.replacedBy) } msgs)
    else .ok msgs

/-- The error, if any, that `checkRule` throws for this entry. -/
def checkRuleErr (reg : Registry) (entry : String × RuleConfig) : Option String :=
  match reg entry.1 with
  | none => some (ruleDefErrorText entry.1)
  | some rule =>
    if !rule.validRuleObject then some (ruleDefErrorText entry.1)
    else if optionsFail rule entry.2 then some (ruleOptionsErrorText entry.1)
    else none

/-- The first error thrown by the validation loop over the loaded rule
entries, if any entry fails. -/
def firstRuleFailure (reg : Registry) : List (String × RuleConfig) → Option String
  | [] => none
  | e :: rest =>
    match checkRuleErr reg e with
    | some err => some err
    | none => firstRuleFailure reg rest

/-- Runs the validation loop, returning the messages buffer at exit together
with the thrown error, if any (the buffer then holds exactly the pushes made
before the throw). -/
def runRuleChecks (reg : Registry) (msgs : List Message) :
    List (String × RuleConfig) → List Message × Option String
  | [] => (msgs, none)
  | e :: rest =>
    match checkRule reg msgs e with
    | .error err => (msgs, some err)
    | .ok msgs' => runRuleChecks reg msgs' rest

/-- The effect of one handler call on the messages buffer. -/
def applyEvent (e : TraversalEvent) (msgs : List Message) : Except String (List Message) :=
  match e with
  | .rep a => report a msgs
  | .repInternal a => reportInternal a msgs

/-- Processes the calls the rule handlers make during traversal, returning
the messages buffer at exit together with the thrown error, if any. -/
def runEvents (msgs : List Message) : List TraversalEvent → List Message × Option String
  | [] => (msgs, none)
  | e :: rest =>
    match applyEvent e msgs with
    | .error err => (msgs, some err)
    | .ok msgs' => runEvents msgs' rest

/-- The internal deprecation notice for the legacy configuration format. -/
def depFormatIssue : ErrorObject :=
  { type := some "warning",
    message := some ("[DEPRECATED] You are using a deprecated soliumrc configuration format. " ++
      "Please see the documentation to migrate from Solium v0 to v1.") }

/-- The internal notice that `custom-rules-filename` is deprecated. -/
def crfIssue (crf : String) : ErrorObject :=
  { type := some "warning",
    message := some ("[DEPRECATED] Attribute \"custom-rules-filename\" is now deprecated. Rules from " ++
      crf ++ " were not loaded. Solium v1 supports plugins. Please check documentation.") }

/-- The deprecated-configuration-format warnings of lines 72-84: an internal
deprecation notice, plus a second one when `custom-rules-filename` is set to
a truthy (non-empty) value. -/
def depFormatWarnings (cc : Config) (msgs : List Message) : List Message :=
  if cc.deprecatedFormat then
    match cc.customRulesFilename with
    | some crf =>
      if crf = "" then pushInternal depFormatIssue msgs
      else pushInternal (crfIssue crf) (pushInternal depFormatIssue msgs)
    | none => pushInternal depFormatIssue msgs
  else msgs

/-- The comparator `lint` sorts the collected messages with:
`a.line - b.line`, breaking ties by `a.column - b.column`. As a boolean
"less or equal" this is the lexicographic order on (line, column). -/
def msgLe (a b : Message) : Bool :=
  decide (a.line < b.line ∨ (a.line = b.line ∧ a.column ≤ b.column))

/-- The comparator as a relation, for the sort model. ECMAScript requires
`Array.prototype.sort` to be stable, and the output of a stable sort is
uniquely determined by the comparator and the input order, so the
(structural, hence executable) insertion sort models the call exactly. -/
def MsgLeR (a b : Message) : Prop := msgLe a b = true

instance : DecidableRel MsgLeR :=
  fun a b => inferInstanceAs (Decidable (msgLe a b = true))

instance : IsTotal Message MsgLeR :=
  ⟨fun a b => by
    simp only [MsgLeR, msgLe, decide_eq_true_eq]
    omega⟩

instance : IsTrans Message MsgLeR :=
  ⟨fun a b c h1 h2 => by
    simp only [MsgLeR, msgLe, decide_eq_true_eq] at h1 h2 ⊢
    omega⟩

/-- Whether internal issues are kept in the returned list
(`currentConfig.options.returnInternalIssues`). -/
def keepInternal (cc : Config) : Bool :=
  (cc.options.getD {}).returnInternalIssues

/-- `JSON.parse (JSON.stringify (config))` of line 68. On the plain-data
configuration values modelled here the JSON round-trip is the identity; its
significance is aliasing: every later write of `lint` targets this copy,
never the caller's object. -/
def jsonDeepCopy (c : Config) : Config := c

/-- The phases of `lint` from the deprecated-format branch onwards (lines
72-161), acting on the messages buffer as of line 70: emit format
deprecation warnings, run the per-rule validation loop, parse (the outcome
of the external parser is the `parseResult` parameter), process the
traversal events, filter out internal issues unless requested, sort, and
return the sorted list while emptying the buffer. Returns the lint result
together with the messages buffer at exit. -/
def lintSession (reg : Registry) (cc : Config) (parseResult : Except String Unit)
    (events : List TraversalEvent) (msgs0 : List Message) :
    Except String (List Message) × List Message :=
  let msgs := depFormatWarnings cc msgs0
  match runRuleChecks reg msgs (rulesLoad cc) with
  | (msgs, some err) => (.error err, msgs)
  | (msgs, none) =>
    match parseResult with
    | .error e => (.error ("An error occured while parsing the source code: " ++ e), msgs)
    | .ok _ =>
      match runEvents msgs events with
      | (msgs, some err) => (.error err, msgs)
      | (msgs, none) =>
        let filtered := if keepInternal cc then msgs else msgs.filter (fun m => !m.internal)
        (.ok (List.insertionSort MsgLeR filtered), [])

/-- What a `lint` call leaves behind: its result (returned list or thrown
error), the module-level state at exit, and the caller's config object as
observable after the call (the code deep-copies the config at line 68 and
applies every subsequent configuration write to the copy, so the caller's
object is handed back untouched on every path). -/
structure LintOutcome where
  result : Except String (List Message)
  state : SoliumState
  callerConfig : ConfigArg
  deriving DecidableEq

/-- `Solium.lint (sourceCode, config, noReset)`. Decodes a Buffer, rejects a
non-string or empty source and an invalid config, resets the session state
unless `noReset`, records the source text, deep-copies the config, ensures
its `options` attribute, loads the effective rules into the copy, and runs
the lint session. -/
def lint (reg : Registry) (sourceCode : SourceInput) (config : ConfigArg) (noReset : Bool)
    (parseResult : Except String Unit) (events : List TraversalEvent)
    (st : SoliumState) : LintOutcome :=
  match decodeSource sourceCode with
  | none => { result := .error "A valid source code string was not passed.",
              state := st, callerConfig := config }
  | some s =>
    if s = "" then
      { result := .error "A valid source code string was not passed.",
        state := st, callerConfig := config }
    else
      match config with
      | .invalid =>
        { result := .error "A valid configuration object was not passed. Please check the documentation.",
          state := st, callerConfig := config }
      | .valid c =>
        let st1 := if noReset then st else reset st
        let cc0 := jsonDeepCopy c
        let cc1 := { cc0 with options := some (cc0.options.getD {}) }
        let cc2 := { cc1 with rules := rulesLoad cc1 }
        let r := lintSession reg cc1 parseResult events st1.messages
        { result := r.1,
          state := { messages := r.2, sourceCodeText := s, currentConfig := some cc2 },
          callerConfig := config }

/-- The edits a diagnostic carries (`message.fix`), the empty list when the
attribute is absent. -/
def msgEdits (m : Message) : List Edit := m.fix.getD []

/-- Whether a diagnostic carries at least one edit. -/
def hasFix (m : Message) : Bool :=
  match m.fix with
  | some (_ :: _) => true
  | _ => false

/-- The minimum start offset among a diagnostic's edits (0 on the empty
list, which the fix scan never consults for an accepted set). -/
def minStart : List Edit → Nat
  | [] => 0
  | e :: rest => rest.foldl (fun a x => min a x.startOffset) e.startOffset

/-- The maximum end offset among a diagnostic's edits. -/
def maxEnd : List Edit → Nat
  | [] => 0
  | e :: rest => rest.foldl (fun a x => max a x.endOffset) e.endOffset

/-- The FixEngine sorts fixable diagnostics by the minimum start offset of
their edit sets (a stable sort, modelled by insertion sort as for the
diagnostic sort). -/
def FixOrder (a b : Message) : Prop :=
  minStart (msgEdits a) ≤ minStart (msgEdits b)

instance : DecidableRel FixOrder :=
  fun _ _ => Nat.decLe _ _

instance : IsTotal Message FixOrder :=
  ⟨fun _ _ => Nat.le_total _ _⟩

instance : IsTrans Message FixOrder :=
  ⟨fun _ _ _ h1 h2 => Nat.le_trans h1 h2⟩

/-- Ascending-offset order on edits, for output-text synthesis. -/
def EditOrder (a b : Edit) : Prop := a.startOffset ≤ b.startOffset

instance : DecidableRel EditOrder :=
  fun _ _ => Nat.decLe _ _

/-- Modelled from the spec: the single left-to-right scan of the FixEngine
(SourceCodeFixer.applyFixes is not part of the embedded sources). Tracking
`frontier` (initially 0), a diagnostic's edit set is treated atomically: it
is accepted exactly when its minimum edit start offset is at least the
frontier, whereupon the frontier becomes the maximum edit end offset;
otherwise the diagnostic is kept in the remaining list. -/
def fixScan (frontier : Nat) (applied remaining : List Message) :
    List Message → List Message × List Message
  | [] => (applied, remaining)
  | m :: rest =>
    if frontier ≤ minStart (msgEdits m) then
      fixScan (maxEnd (msgEdits m)) (applied ++ [m]) remaining rest
    else
      fixScan frontier applied (remaining ++ [m]) rest

/-- Splices a list of (ascending, non-overlapping) edits into the source
text: characters before an edit's range are kept, the range is replaced by
the edit's text. -/
def spliceEdits (src : List Char) (pos : Nat) : List Edit → List Char
  | [] => src.drop pos
  | e :: rest =>
    ((src.drop pos).take (e.startOffset - pos)) ++ e.text.toList ++
      spliceEdits src e.endOffset rest

/-- Modelled from the spec: output-text synthesis of the FixEngine —
concatenate unedited spans and each accepted edit's replacement text in
ascending offset order. -/
def synthesizeFixed (source : String) (edits : List Edit) : String :=
  String.mk (spliceEdits source.toList 0 (List.insertionSort EditOrder edits))

/-- The result record of `SourceCodeFixer.applyFixes`, as consumed by
`lintAndFix` (applied fixes, fixed text, remaining messages). -/
structure FixedResult where
  fixesApplied : List Message
  fixedSourceCode : String
  remainingErrorMessages : List Message
  deriving DecidableEq

/-- Modelled from the spec: `SourceCodeFixer.applyFixes (sourceCode,
errorObjects)` (not part of the embedded sources). Diagnostics carrying at
least one edit are sorted by their minimum edit start offset (stably) and
scanned once with the frontier; diagnostics with zero edits are unfixed by
definition and stay in the remaining list without affecting the frontier. -/
def applyFixes (source : String) (msgs : List Message) : FixedResult :=
  let fixable := msgs.filter hasFix
  let unfixable := msgs.filter (fun m => !(hasFix m))
  let sorted := List.insertionSort FixOrder fixable
  let scanned := fixScan 0 [] [] sorted
  { fixesApplied := scanned.1,
    fixedSourceCode := synthesizeFixed source (scanned.1.flatMap msgEdits),
    remainingErrorMessages := unfixable ++ scanned.2 }

/-- The result object of `Solium.lintAndFix`. -/
structure LintAndFixResult where
  originalSourceCode : String
  fixesApplied : List Message
  fixedSourceCode : String
  errorMessages : List Message
  deriving DecidableEq

/-- What a `lintAndFix` call leaves behind, analogous to `LintOutcome`. -/
structure LintAndFixOutcome where
  result : Except String LintAndFixResult
  state : SoliumState
  callerConfig : ConfigArg
  deriving DecidableEq

/-- `Solium.lintAndFix (sourceCode, config, noReset)`: decodes a Buffer,
lints (a lint throw propagates), then applies the fixes the returned
diagnostics carry and packages the result. -/
def lintAndFix (reg : Registry) (sourceCode : SourceInput) (config : ConfigArg)
    (noReset : Bool) (parseResult : Except String Unit) (events : List TraversalEvent)
    (st : SoliumState) : LintAndFixOutcome :=
  let sourceCode := match sourceCode with
    | .buffer s => SourceInput.str s
    | x => x
  let o := lint reg sourceCode config noReset parseResult events st
  match o.result with
  | .error e => { result := .error e, state := o.state, callerConfig := o.callerConfig }
  | .ok errs =>
    let fixed := applyFixes (sourceText sourceCode) errs
    { result := .ok { originalSourceCode := sourceText sourceCode,
                      fixesApplied := fixed.fixesApplied,
                      fixedSourceCode := fixed.fixedSourceCode,
                      errorMessages := fixed.remainingErrorMessages },
      state := o.state, callerConfig := o.callerConfig }

/-- A parsed AST node for the traversal-driver model: a type tag and the
ordered children. (Source spans play no role in the mutation claims.) -/
inductive SNode where
  | mk (type : String) (children : List SNode)

/-- The children of a parsed node. -/
def SNode.childList : SNode → List SNode
  | .mk _ cs => cs

/-- A node as a rule handler observes it when the traversal driver notifies
it: the node together with the value of its `parent` attribute at that
moment (`none` models the attribute being absent or `undefined`). -/
structure NodeView where
  node : SNode
  parentField : Option SNode

/-- One notification fired by the traversal driver. -/
inductive TraceEvent where
  | enter (v : NodeView)
  | leave (v : NodeView)

mutual
/-- The traversal driver of lint (lines 130-140): depth-first over the AST
supplied by the parser. On entering a node it sets `node.parent = parent`,
fires the enter notification (the handler thus observes the node with the
parent attribute set), then deletes `node.parent` again before descending
into the children; after the children it fires the leave notification (the
node then carries no parent attribute). Returns the node as it stands after
the traversal together with the fired notifications. -/
def traverseNode (n : SNode) (parent : Option SNode) : SNode × List TraceEvent :=
  match n with
  | .mk t cs =>
    let r := traverseChildren cs (SNode.mk t cs)
    (SNode.mk t r.1,
     TraceEvent.enter { node := SNode.mk t cs, parentField := parent } ::
       r.2 ++ [TraceEvent.leave { node := SNode.mk t r.1, parentField := none }])

/-- Traverses a node's children left to right, each with the node as its
traversal parent. -/
def traverseChildren (cs : List SNode) (parent : SNode) : List SNode × List TraceEvent :=
  match cs with
  | [] => ([], [])
  | c :: rest =>
    let r1 := traverseNode c (some parent)
    let r2 := traverseChildren rest parent
    (r1.1 :: r2.1, r1.2 ++ r2.2)
end

/-- `solExplore.traverse (AST, ...)` as invoked by lint: the root is visited
with no parent. -/
def lintTraversal (ast : SNode) : SNode × List TraceEvent :=
  traverseNode ast none

/-- Concrete two-diagnostic output used to exercise the ordering theorem on
a concrete lint call: the internal deprecation notice and a rule diagnostic
at a genuine source position. -/
def sampleSortedOutput : List Message :=
  [{ ruleName := none, type := some "warning", message := depFormatIssue.message,
     line := -1, column := -1, internal := true, fix := none },
   { ruleName := some "r", type := some "error", message := some "m",
     line := 3, column := 1, internal := false, fix := none }]

theorem msgLe_trans (a b c : Message) (h1 : msgLe a b = true) (h2 : msgLe b c = true) :
    msgLe a c = true := by
  simp only [msgLe, decide_eq_true_eq] at h1 h2 ⊢
  omega

theorem msgLe_total (a b : Message) : msgLe a b || msgLe b a := by
  simp only [msgLe, Bool.or_eq_true, decide_eq_true_eq]
  omega

theorem pushInternal_shape (issue : ErrorObject) (msgs : List Message) :
    ∀ m ∈ pushInternal issue msgs, m ∈ msgs ∨ (m.internal = true ∧ m.line = -1 ∧ m.column = -1) := by
  intro m hm
  simp only [pushInternal, List.mem_append, List.mem_singleton] at hm
  rcases hm with hm | rfl
  · exact Or.inl hm
  · exact Or.inr ⟨rfl, rfl, rfl⟩

theorem report_ok_shape (arg : ReportArg) (msgs msgs' : List Message)
    (hok : report arg msgs = .ok msgs') :
    ∃ tail, msgs' = msgs ++ tail ∧
      ∀ m ∈ tail, m.internal = true → m.line = -1 ∧ m.column = -1 := by
  cases arg with
  | nonObject => simp [report] at hok
  | obj e =>
    simp only [report] at hok
    cases hnode : e.node with
    | none => rw [hnode] at hok; simp at hok
    | some node =>
      rw [hnode] at hok
      cases hmsg : e.message with
      | none => rw [hmsg] at hok; simp at hok
      | some msgText =>
        rw [hmsg] at hok
        by_cases hempty : msgText = ""
        · simp [hempty] at hok
        · simp only [hempty, if_false] at hok
          cases hfix : e.fix with
          | none =>
            rw [hfix] at hok
            simp only [Except.ok.injEq] at hok
            refine ⟨_, hok.symm, ?_⟩
            intro m hm
            simp only [List.mem_singleton] at hm
            subst hm
            intro h
            simp at h
          | some f =>
            rw [hfix] at hok
            dsimp only at hok
            cases hfb : e.ruleMetaFixable with
            | false =>
              rw [hfb, if_pos rfl] at hok
              simp only [pushInternal, List.append_assoc, Except.ok.injEq] at hok
              refine ⟨_, hok.symm, ?_⟩
              intro m hm
              simp only [List.mem_append, List.mem_singleton] at hm
              rcases hm with rfl | rfl
              · exact fun _ => ⟨rfl, rfl⟩
              · intro h; simp at h
            | true =>
              rw [hfb, if_neg (by simp)] at hok
              cases f with
              | notFunction => simp at hok
              | fn edits =>
                simp only [Except.ok.injEq] at hok
                refine ⟨_, hok.symm, ?_⟩
                intro m hm
                simp only [List.mem_singleton] at hm
                subst hm
                intro h
                simp at h

theorem reportInternal_ok_shape (arg : ReportArg) (msgs msgs' : List Message)
    (hok : reportInternal arg msgs = .ok msgs') :
    ∃ tail, msgs' = msgs ++ tail ∧
      ∀ m ∈ tail, m.internal = true → m.line = -1 ∧ m.column = -1 := by
  cases arg with
  | nonObject => simp [reportInternal] at hok
  | obj e =>
    simp only [reportInternal, Except.ok.injEq] at hok
    refine ⟨_, hok.symm, ?_⟩
    intro m hm
    simp only [pushInternal, List.mem_singleton] at hm
    subst hm
    exact fun _ => ⟨rfl, rfl⟩

/-- C5: for every `report` call whose issue object lacks a valid AST node or
lacks a non-empty string message, the call raises a fatal error attributed
to the reporting rule (by its `ruleId`); the error return means the
malformed issue is never pushed to the diagnostic buffer. -/
theorem report_malformed_issue_fatal (e : ErrorObject) (msgs : List Message) :
    (e.node = none →
      report (.obj e) msgs =
        .error ("Rule " ++ jsDisplay e.ruleId ++ " does not provide a valid AST node")) ∧
    (∀ nd, e.node = some nd → (e.message = none ∨ e.message = some "") →
      report (.obj e) msgs =
        .error ("Rule " ++ jsDisplay e.ruleId ++
          " flags a node but doesn\x27t provide an error description")) := by
  constructor
  · intro h
    simp [report, h]
  · intro nd h hm
    rcases hm with hm | hm <;> simp [report, h, hm]

theorem report_malformed_issue_fatal_witness :
    report (.obj { ruleId := some "r1", message := some "x" }) [] =
      .error ("Rule " ++ jsDisplay (some "r1") ++ " does not provide a valid AST node") ∧
    report (.obj { ruleId := some "r2", node := some ⟨"T", 1, 2⟩, message := some "" }) [] =
      .error ("Rule " ++ jsDisplay (some "r2") ++
        " flags a node but doesn\x27t provide an error description") :=
  ⟨(report_malformed_issue_fatal { ruleId := some "r1", message := some "x" } []).1 rfl,
   (report_malformed_issue_fatal
      { ruleId := some "r2", node := some ⟨"T", 1, 2⟩, message := some "" } []).2
      ⟨"T", 1, 2⟩ rfl (Or.inr rfl)⟩

/-- C6 counterexample: `reportInternal` does not apply the same validation
as `report`. The concrete issue object below has no AST node (and so fails
`report`'s validation), yet `reportInternal` accepts it and pushes it
instead of raising a fatal error. -/
theorem reportInternal_accepts_nodeless_issue :
    reportInternal (.obj { type := some "warning", message := some "hello" }) [] =
      .ok [{ ruleName := none, type := some "warning", message := some "hello",
             line := -1, column := -1, internal := true, fix := none }] ∧
    report (.obj { type := some "warning", message := some "hello" }) [] =
      .error ("Rule " ++ jsDisplay none ++ " does not provide a valid AST node") :=
  ⟨rfl, rfl⟩

/-- C6 (amended): `reportInternal` validates only that the issue is a strict
object, raising the fatal "Invalid error object" error otherwise; on success
it forces `internal = true` and assigns the sentinel ordering position
`line = -1, column = -1` to the pushed issue. -/
theorem reportInternal_object_check_and_sentinel (msgs : List Message) :
    reportInternal .nonObject msgs = .error "Invalid error object" ∧
    ∀ issue : ErrorObject, reportInternal (.obj issue) msgs =
      .ok (msgs ++ [{ ruleName := issue.ruleName, type := issue.type, message := issue.message,
                      line := -1, column := -1, internal := true, fix := none }]) :=
  ⟨rfl, fun _ => rfl⟩

theorem checkRule_error_iff (reg : Registry) (msgs : List Message)
    (entry : String × RuleConfig) (err : String) :
    checkRule reg msgs entry = .error err ↔ checkRuleErr reg entry = some err := by
  unfold checkRule checkRuleErr
  cases hr : reg entry.1 with
  | none => simp
  | some rule =>
    dsimp only
    cases hv : rule.validRuleObject with
    | false => simp
    | true =>
      simp only [Bool.not_true, Bool.false_eq_true, if_false]
      cases ho : optionsFail rule entry.2 with
      | true => simp
      | false =>
        simp only [Bool.false_eq_true, if_false]
        split <;> simp

theorem checkRule_ok_shape (reg : Registry) (msgs : List Message)
    (entry : String × RuleConfig) (msgs' : List Message)
    (hok : checkRule reg msgs entry = .ok msgs') :
    ∃ tail, msgs' = msgs ++ tail ∧
      ∀ m ∈ tail, m.internal = true → m.line = -1 ∧ m.column = -1 := by
  unfold checkRule at hok
  cases hr : reg entry.1 with
  | none => rw [hr] at hok; simp at hok
  | some rule =>
    rw [hr] at hok
    dsimp only at hok
    split at hok
    · simp at hok
    · split at hok
      · simp at hok
      · split at hok
        · simp only [Except.ok.injEq] at hok
          refine ⟨_, hok.symm, ?_⟩
          intro m hm
          simp only [pushInternal, List.mem_singleton] at hm
          subst hm
          exact fun _ => ⟨rfl, rfl⟩
        · simp only [Except.ok.injEq] at hok
          exact ⟨[], by simp [hok], by simp⟩

theorem checkRule_ok_err (reg : Registry) (msgs : List Message)
    (entry : String × RuleConfig) (msgs' : List Message)
    (hok : checkRule reg msgs entry = .ok msgs') :
    checkRuleErr reg entry = none := by
  cases herr : checkRuleErr reg entry with
  | none => rfl
  | some err =>
    rw [← checkRule_error_iff reg msgs entry err] at herr
    rw [hok] at herr
    exact absurd herr (by simp)

theorem checkRuleErr_shape (reg : Registry) (entry : String × RuleConfig) (err : String)
    (h : checkRuleErr reg entry = some err) :
    err = ruleDefErrorText entry.1 ∨ err = ruleOptionsErrorText entry.1 := by
  unfold checkRuleErr at h
  cases hr : reg entry.1 with
  | none => rw [hr] at h; simp at h; exact Or.inl h.symm
  | some rule =>
    rw [hr] at h
    dsimp only at h
    split at h
    · simp at h; exact Or.inl h.symm
    · split at h
      · simp at h; exact Or.inr h.symm
      · simp at h

theorem runRuleChecks_err (reg : Registry) :
    ∀ (entries : List (String × RuleConfig)) (msgs : List Message),
      (runRuleChecks reg msgs entries).2 = firstRuleFailure reg entries := by
  intro entries
  induction entries with
  | nil => intro msgs; rfl
  | cons e rest ih =>
    intro msgs
    unfold runRuleChecks firstRuleFailure
    cases hc : checkRule reg msgs e with
    | error err =>
      rw [(checkRule_error_iff reg msgs e err).1 hc]
    | ok msgs' =>
      rw [checkRule_ok_err reg msgs e msgs' hc]
      exact ih msgs'

theorem runRuleChecks_shape (reg : Registry) :
    ∀ (entries : List (String × RuleConfig)) (msgs : List Message),
      ∃ tail, (runRuleChecks reg msgs entries).1 = msgs ++ tail ∧
        ∀ m ∈ tail, m.internal = true → m.line = -1 ∧ m.column = -1 := by
  intro entries
  induction entries with
  | nil => intro msgs; exact ⟨[], by simp [runRuleChecks], by simp⟩
  | cons e rest ih =>
    intro msgs
    unfold runRuleChecks
    cases hc : checkRule reg msgs e with
    | error err => exact ⟨[], by simp, by simp⟩
    | ok msgs' =>
      obtain ⟨t1, ht1, hs1⟩ := checkRule_ok_shape reg msgs e msgs' hc
      obtain ⟨t2, ht2, hs2⟩ := ih msgs'
      refine ⟨t1 ++ t2, ?_, ?_⟩
      · rw [ht2, ht1, List.append_assoc]
      · intro m hm
        rcases List.mem_append.1 hm with hm | hm
        · exact hs1 m hm
        · exact hs2 m hm

theorem runEvents_shape :
    ∀ (events : List TraversalEvent) (msgs : List Message),
      ∃ tail, (runEvents msgs events).1 = msgs ++ tail ∧
        ∀ m ∈ tail, m.internal = true → m.line = -1 ∧ m.column = -1 := by
  intro events
  induction events with
  | nil => intro msgs; exact ⟨[], by simp [runEvents], by simp⟩
  | cons e rest ih =>
    intro msgs
    unfold runEvents
    cases he : applyEvent e msgs with
    | error err => exact ⟨[], by simp, by simp⟩
    | ok msgs' =>
      have hshape : ∃ tail, msgs' = msgs ++ tail ∧
          ∀ m ∈ tail, m.internal = true → m.line = -1 ∧ m.column = -1 := by
        cases e with
        | rep a => exact report_ok_shape a msgs msgs' (by simpa [applyEvent] using he)
        | repInternal a => exact reportInternal_ok_shape a msgs msgs' (by simpa [applyEvent] using he)
      obtain ⟨t1, ht1, hs1⟩ := hshape
      obtain ⟨t2, ht2, hs2⟩ := ih msgs'
      refine ⟨t1 ++ t2, ?_, ?_⟩
      · dsimp only
        rw [ht2, ht1, List.append_assoc]
      · intro m hm
        rcases List.mem_append.1 hm with hm | hm
        · exact hs1 m hm
        · exact hs2 m hm

theorem depFormatWarnings_shape (cc : Config) (msgs : List Message) :
    ∃ tail, depFormatWarnings cc msgs = msgs ++ tail ∧
      ∀ m ∈ tail, m.internal = true → m.line = -1 ∧ m.column = -1 := by
  unfold depFormatWarnings
  cases hd : cc.deprecatedFormat with
  | false =>
    rw [if_neg (by simp)]
    exact ⟨[], by simp, by simp⟩
  | true =>
    rw [if_pos rfl]
    cases hc : cc.customRulesFilename with
    | none =>
      refine ⟨_, rfl, ?_⟩
      intro m hm
      simp only [pushInternal, List.mem_singleton] at hm
      subst hm
      exact fun _ => ⟨rfl, rfl⟩
    | some crf =>
      dsimp only
      by_cases hcrf : crf = ""
      · rw [if_pos hcrf]
        refine ⟨_, rfl, ?_⟩
        intro m hm
        simp only [pushInternal, List.mem_singleton] at hm
        subst hm
        exact fun _ => ⟨rfl, rfl⟩
      · rw [if_neg hcrf]
        refine ⟨_, List.append_assoc _ _ _, ?_⟩
        intro m hm
        simp only [pushInternal, List.mem_append, List.mem_singleton] at hm
        rcases hm with rfl | rfl <;> exact fun _ => ⟨rfl, rfl⟩

theorem firstRuleFailure_mem (reg : Registry) :
    ∀ (entries : List (String × RuleConfig)) (err : String),
      firstRuleFailure reg entries = some err →
      ∃ entry ∈ entries, checkRuleErr reg entry = some err ∧
        (err = ruleDefErrorText entry.1 ∨ err = ruleOptionsErrorText entry.1) := by
  intro entries
  induction entries with
  | nil => intro err h; simp [firstRuleFailure] at h
  | cons e rest ih =>
    intro err h
    unfold firstRuleFailure at h
    cases hc : checkRuleErr reg e with
    | some e0 =>
      rw [hc] at h
      simp only [Option.some.injEq] at h
      subst h
      exact ⟨e, List.mem_cons_self e rest, hc, checkRuleErr_shape reg e e0 hc⟩
    | none =>
      rw [hc] at h
      obtain ⟨entry, hmem, h1, h2⟩ := ih err h
      exact ⟨entry, List.mem_cons_of_mem e hmem, h1, h2⟩

theorem lintSession_ruleFailure (reg : Registry) (cc : Config) (p : Except String Unit)
    (ev : List TraversalEvent) (msgs0 : List Message) (err : String)
    (h : firstRuleFailure reg (rulesLoad cc) = some err) :
    (lintSession reg cc p ev msgs0).1 = .error err := by
  unfold lintSession
  have h2 := runRuleChecks_err reg (rulesLoad cc) (depFormatWarnings cc msgs0)
  rcases hR : runRuleChecks reg (depFormatWarnings cc msgs0) (rulesLoad cc) with ⟨msgs1, r2⟩
  rw [hR] at h2
  dsimp only at h2
  rw [h] at h2
  subst h2
  simp [hR]

theorem lintSession_ok_inv (reg : Registry) (cc : Config) (p : Except String Unit)
    (ev : List TraversalEvent) (msgs0 : List Message) (l : List Message)
    (hok : (lintSession reg cc p ev msgs0).1 = .ok l)
    (h0 : ∀ m ∈ msgs0, m.internal = true → m.line = -1 ∧ m.column = -1) :
    List.Pairwise MsgLeR l ∧
      ∀ m ∈ l, m.internal = true → m.line = -1 ∧ m.column = -1 := by
  unfold lintSession at hok
  dsimp only at hok
  obtain ⟨td, htd, hsd⟩ := depFormatWarnings_shape cc msgs0
  have hinv1 : ∀ m ∈ depFormatWarnings cc msgs0, m.internal = true → m.line = -1 ∧ m.column = -1 := by
    intro m hm
    rw [htd] at hm
    rcases List.mem_append.1 hm with hm | hm
    · exact h0 m hm
    · exact hsd m hm
  rcases hR : runRuleChecks reg (depFormatWarnings cc msgs0) (rulesLoad cc) with ⟨msgs2, r2⟩
  rw [hR] at hok
  have hinv2 : ∀ m ∈ msgs2, m.internal = true → m.line = -1 ∧ m.column = -1 := by
    obtain ⟨t2, ht2, hs2⟩ := runRuleChecks_shape reg (rulesLoad cc) (depFormatWarnings cc msgs0)
    rw [hR] at ht2
    dsimp only at ht2
    intro m hm
    rw [ht2] at hm
    rcases List.mem_append.1 hm with hm | hm
    · exact hinv1 m hm
    · exact hs2 m hm
  cases r2 with
  | some err => simp at hok
  | none =>
    dsimp only at hok
    cases p with
    | error e => simp at hok
    | ok u =>
      dsimp only at hok
      rcases hE : runEvents msgs2 ev with ⟨msgs3, r3⟩
      rw [hE] at hok
      have hinv3 : ∀ m ∈ msgs3, m.internal = true → m.line = -1 ∧ m.column = -1 := by
        obtain ⟨t3, ht3, hs3⟩ := runEvents_shape ev msgs2
        rw [hE] at ht3
        dsimp only at ht3
        intro m hm
        rw [ht3] at hm
        rcases List.mem_append.1 hm with hm | hm
        · exact hinv2 m hm
        · exact hs3 m hm
      cases r3 with
      | some err => simp at hok
      | none =>
        simp only [Except.ok.injEq] at hok
        subst hok
        constructor
        · exact List.sorted_insertionSort MsgLeR _
        · intro m hm
          have hmem : m ∈ (if keepInternal cc then msgs3 else msgs3.filter (fun m => !m.internal)) :=
            (List.perm_insertionSort MsgLeR _).mem_iff.1 hm
          have hmem3 : m ∈ msgs3 := by
            by_cases hk : keepInternal cc
            · rw [if_pos hk] at hmem; exact hmem
            · rw [if_neg hk] at hmem; exact List.mem_of_mem_filter hmem
          exact hinv3 m hmem3

/-- C1 (amended): every `lint` call that returns (from a session state whose
buffered internal diagnostics, if any, sit at the sentinel position) returns
a list sorted ascending by (line, column); every internal diagnostic in it
carries the sentinel position (-1, -1), and therefore every internal
diagnostic precedes every rule-reported diagnostic whose position is
lexicographically greater than the sentinel — in particular every diagnostic
at a genuine source position. (A rule that supplies a location at or below
the sentinel position can sort before internal diagnostics, so the ordering
guarantee is position-conditional, not absolute.) -/
theorem lint_sorted_internal_first (reg : Registry) (src : SourceInput) (config : ConfigArg)
    (noReset : Bool) (p : Except String Unit) (ev : List TraversalEvent) (st : SoliumState)
    (l : List Message)
    (hst : ∀ m ∈ st.messages, m.internal = true → m.line = -1 ∧ m.column = -1)
    (hok : (lint reg src config noReset p ev st).result = .ok l) :
    List.Pairwise MsgLeR l ∧
    (∀ m ∈ l, m.internal = true → m.line = -1 ∧ m.column = -1) ∧
    (∀ i j : Fin l.length, (l.get i).internal = true → (l.get j).internal = false →
      (-1 < (l.get j).line ∨ ((l.get j).line = -1 ∧ -1 < (l.get j).column)) →
      (i : Nat) < (j : Nat)) := by
  unfold lint at hok
  cases hd : decodeSource src with
  | none => rw [hd] at hok; simp at hok
  | some s =>
    rw [hd] at hok
    dsimp only at hok
    by_cases hs : s = ""
    · rw [if_pos hs] at hok; simp at hok
    · rw [if_neg hs] at hok
      cases config with
      | invalid => simp at hok
      | valid c =>
        dsimp only at hok
        have h0 : ∀ m ∈ (if noReset then st else reset st).messages,
            m.internal = true → m.line = -1 ∧ m.column = -1 := by
          cases noReset with
          | true => exact hst
          | false => intro m hm; simp [reset] at hm
        obtain ⟨hp, hinv⟩ := lintSession_ok_inv reg _ p ev _ l hok h0
        refine ⟨hp, hinv, ?_⟩
        intro i j hi hj hjpos
        rcases Nat.lt_trichotomy (i : Nat) (j : Nat) with h | h | h
        · exact h
        · exfalso
          have hij : i = j := Fin.ext h
          subst hij
          rw [hi] at hj
          exact absurd hj (by simp)
        · exfalso
          have hji : j < i := h
          have hr := List.pairwise_iff_get.1 hp j i hji
          have hsent := hinv (l.get i) (List.get_mem l i.1 i.2) hi
          simp only [MsgLeR, msgLe, decide_eq_true_eq] at hr
          rcases hsent with ⟨hl, hc⟩
          rw [hl, hc] at hr
          omega

theorem lint_sorted_internal_first_witness :
    List.Pairwise MsgLeR sampleSortedOutput ∧
    (∀ m ∈ sampleSortedOutput, m.internal = true → m.line = -1 ∧ m.column = -1) ∧
    (∀ i j : Fin sampleSortedOutput.length,
      (sampleSortedOutput.get i).internal = true →
      (sampleSortedOutput.get j).internal = false →
      (-1 < (sampleSortedOutput.get j).line ∨
        ((sampleSortedOutput.get j).line = -1 ∧ -1 < (sampleSortedOutput.get j).column)) →
      (i : Nat) < (j : Nat)) :=
  lint_sorted_internal_first (fun _ => none) (.str "src")
    (.valid { rules := [], options := some { returnInternalIssues := true },
              deprecatedFormat := true })
    false (.ok ())
    [.rep (.obj { ruleName := some "r", ruleId := some "r", type := some "error",
                  node := some ⟨"X", 3, 1⟩, message := some "m" })]
    initialState sampleSortedOutput (by simp [initialState]) (by decide)

/-- C1 counterexample: internal diagnostics do not precede every
rule-reported diagnostic regardless of reporting order. A rule that supplies
an explicit location below the sentinel (line -2) sorts before the internal
deprecation notice, so the returned list has a rule-reported, non-internal
diagnostic first and an internal diagnostic second. -/
theorem lint_rule_diagnostic_precedes_internal :
    (lint (fun _ => none) (.str "src")
        (.valid { rules := [], options := some { returnInternalIssues := true },
                  deprecatedFormat := true })
        false (.ok ())
        [.rep (.obj { ruleName := some "r", ruleId := some "r", type := some "error",
                      node := some ⟨"X", 3, 1⟩, message := some "m",
                      location := some { line := some (-2), column := some (-1) } })]
        initialState).result =
      .ok [{ ruleName := some "r", type := some "error", message := some "m",
             line := -2, column := -1, internal := false, fix := none },
           { ruleName := none, type := some "warning", message := depFormatIssue.message,
             line := -1, column := -1, internal := true, fix := none }] ∧
    ({ ruleName := some "r", type := some "error", message := some "m",
       line := -2, column := -1, internal := false, fix := none } : Message).internal = false ∧
    ({ ruleName := none, type := some "warning", message := depFormatIssue.message,
       line := -1, column := -1, internal := true, fix := none } : Message).internal = true := by
  refine ⟨by decide, rfl, rfl⟩

/-- C2 (amended): for every config in which some enabled rule resolves to an
invalid rule module or is given options that fail its schema, `lint` aborts
with a fatal error naming that rule (the first failing one in rule-entry
order), before parsing or traversing the source — the thrown error is
independent of the parser outcome and of anything the rule handlers would
report — and it returns zero diagnostics (an exception, never a partial
list). Session-state writes made before the abort (the recorded source
text, buffered internal deprecation notices) do persist until the next
reset; the abort is not free of side effects on the session state. -/
theorem lint_invalid_rule_aborts (reg : Registry) (s : String) (c : Config) (noReset : Bool)
    (p : Except String Unit) (ev : List TraversalEvent) (st : SoliumState) (err : String)
    (hs : s ≠ "") (hfail : firstRuleFailure reg c.rules = some err) :
    (∀ (p' : Except String Unit) (ev' : List TraversalEvent),
      (lint reg (.str s) (.valid c) noReset p' ev' st).result = .error err) ∧
    (lint reg (.str s) (.valid c) noReset p ev st).result = .error err ∧
    ∃ entry ∈ c.rules, checkRuleErr reg entry = some err ∧
      (err = ruleDefErrorText entry.1 ∨ err = ruleOptionsErrorText entry.1) := by
  have hmain : ∀ (p' : Except String Unit) (ev' : List TraversalEvent),
      (lint reg (.str s) (.valid c) noReset p' ev' st).result = .error err := by
    intro p' ev'
    unfold lint
    simp only [decodeSource]
    rw [if_neg hs]
    exact lintSession_ruleFailure reg _ p' ev' _ err hfail
  exact ⟨hmain, hmain p ev, firstRuleFailure_mem reg c.rules err hfail⟩

theorem lint_invalid_rule_aborts_witness :
    ("x" : String) ≠ "" ∧
    firstRuleFailure (fun _ => none) [(("foo" : String), ({} : RuleConfig))] =
      some (ruleDefErrorText "foo") ∧
    (lint (fun _ => none) (.str "x") (.valid { rules := [("foo", {})] }) false (.ok ()) []
        initialState).result = .error (ruleDefErrorText "foo") :=
  ⟨by decide, by rfl,
   (lint_invalid_rule_aborts (fun _ => none) "x" { rules := [("foo", {})] } false (.ok ()) []
      initialState (ruleDefErrorText "foo") (by decide) (by rfl)).2.1⟩

/-- C2 counterexample: the abort is not side-effect free. With a config in
the deprecated format enabling one unknown rule, `lint` throws the
config-time error, yet afterwards the session state records the new source
text and holds a buffered internal deprecation notice — observable, e.g.,
through `getSourceCode` or a later `noReset` call. -/
theorem lint_invalid_rule_abort_has_side_effects :
    (lint (fun _ => none) (.str "srcA")
        (.valid { rules := [("foo", {})], deprecatedFormat := true }) false (.ok ()) []
        initialState).result = .error (ruleDefErrorText "foo") ∧
    (lint (fun _ => none) (.str "srcA")
        (.valid { rules := [("foo", {})], deprecatedFormat := true }) false (.ok ()) []
        initialState).state.sourceCodeText = "srcA" ∧
    (lint (fun _ => none) (.str "srcA")
        (.valid { rules := [("foo", {})], deprecatedFormat := true }) false (.ok ()) []
        initialState).state.messages ≠ [] := by
  refine ⟨rfl, rfl, ?_⟩
  decide

/-- C3 (amended): a `lint` call that does not pass `noReset` reinitialises
the session state before collecting anything, so its result is independent
of whatever a previous call left behind: it equals the result of the same
call run from the freshly initialised module state. Hence, for two
sequential lint calls where the second does not request `noReset`, the
second call's returned list contains no diagnostic produced during the
first call. -/
theorem lint_reset_no_leakage (reg : Registry) (src : SourceInput) (config : ConfigArg)
    (p : Except String Unit) (ev : List TraversalEvent) (st : SoliumState) :
    (lint reg src config false p ev st).result =
      (lint reg src config false p ev initialState).result := by
  unfold lint
  cases hd : decodeSource src with
  | none => rfl
  | some s =>
    dsimp only
    split
    · rfl
    · cases config <;> rfl

/-- C3 counterexample: session state is not reinitialised on a `noReset`
call, and diagnostics can leak between sequential calls. The first call
(deprecated-format config with an unknown rule) throws after buffering an
internal deprecation notice; a second call on an unrelated source passing
`noReset` then returns that very notice among its diagnostics. -/
theorem lint_noReset_leaks_diagnostics :
    (lint (fun _ => none) (.str "srcA")
        (.valid { rules := [("foo", {})], deprecatedFormat := true }) false (.ok ()) []
        initialState).result = .error (ruleDefErrorText "foo") ∧
    (lint (fun _ => none) (.str "srcB")
        (.valid { rules := [], options := some { returnInternalIssues := true } }) true (.ok ()) []
        (lint (fun _ => none) (.str "srcA")
          (.valid { rules := [("foo", {})], deprecatedFormat := true }) false (.ok ()) []
          initialState).state).result =
      .ok (pushInternal depFormatIssue []) := by
  exact ⟨rfl, rfl⟩

/-- C9: `lint` (and `lintAndFix`) accepts a Buffer as sourceCode, behaving
exactly as if called with the buffer decoded to a string; an empty buffer is
rejected with the same fatal input error as an empty string. -/
theorem lint_buffer_like_string (reg : Registry) (s : String) (config : ConfigArg)
    (noReset : Bool) (p : Except String Unit) (ev : List TraversalEvent) (st : SoliumState) :
    lint reg (.buffer s) config noReset p ev st = lint reg (.str s) config noReset p ev st ∧
    lintAndFix reg (.buffer s) config noReset p ev st =
      lintAndFix reg (.str s) config noReset p ev st ∧
    (lint reg (.buffer "") config noReset p ev st).result =
      .error "A valid source code string was not passed." ∧
    (lint reg (.str "") config noReset p ev st).result =
      .error "A valid source code string was not passed." := by
  refine ⟨rfl, rfl, ?_, ?_⟩ <;> simp [lint, decodeSource]

theorem fixScan_accepts_separated :
    ∀ (l applied remaining : List Message) (frontier : Nat),
      l.Pairwise (fun a b => maxEnd (msgEdits a) ≤ minStart (msgEdits b)) →
      (∀ m ∈ l, frontier ≤ minStart (msgEdits m)) →
      fixScan frontier applied remaining l = (applied ++ l, remaining) := by
  intro l
  induction l with
  | nil => intro applied remaining frontier _ _; simp [fixScan]
  | cons m rest ih =>
    intro applied remaining frontier hp hf
    have hcons := List.pairwise_cons.1 hp
    have hstep : fixScan frontier applied remaining (m :: rest) =
        fixScan (maxEnd (msgEdits m)) (applied ++ [m]) remaining rest := by
      simp only [fixScan]
      rw [if_pos (hf m (List.mem_cons_self m rest))]
    rw [hstep, ih (applied ++ [m]) remaining (maxEnd (msgEdits m)) hcons.2 hcons.1]
    simp

/-- C4 (amended): the FixEngine scans the sorted diagnostics once with a
frontier initialised to 0; a diagnostic's edit set (treated atomically) is
accepted exactly when its minimum edit start offset is at least the current
frontier, after which the frontier becomes the maximum edit end offset.
Consequently: (a) for N diagnostics with pairwise non-overlapping and
non-degenerate edit sets (each set's minimum start offset strictly below its
maximum end offset), all N are accepted — the applied count is N and nothing
remains; and (b) of two diagnostics with overlapping edit ranges, exactly
the earlier-sorted one is accepted while the other stays in the remaining
list. Non-degeneracy is needed: a degenerate insertion-only edit set can tie
on the sort key with a replacement starting at the same offset and be
rejected despite not overlapping it (see the counterexample below the
witness). -/
theorem applyFixes_frontier_scan (src : String) :
    (∀ msgs : List Message,
      (∀ m ∈ msgs, hasFix m = true) →
      (∀ m ∈ msgs, minStart (msgEdits m) < maxEnd (msgEdits m)) →
      msgs.Pairwise (fun a b => maxEnd (msgEdits a) ≤ minStart (msgEdits b) ∨
        maxEnd (msgEdits b) ≤ minStart (msgEdits a)) →
      (applyFixes src msgs).fixesApplied.length = msgs.length ∧
        (applyFixes src msgs).remainingErrorMessages = []) ∧
    (∀ m1 m2 : Message, hasFix m1 = true → hasFix m2 = true →
      FixOrder m1 m2 →
      ¬(maxEnd (msgEdits m1) ≤ minStart (msgEdits m2)) →
      ¬(maxEnd (msgEdits m2) ≤ minStart (msgEdits m1)) →
      (applyFixes src [m1, m2]).fixesApplied = [m1] ∧
        (applyFixes src [m1, m2]).remainingErrorMessages = [m2]) := by
  constructor
  · intro msgs h1 h2 h3
    have hfil : msgs.filter hasFix = msgs := List.filter_eq_self.2 h1
    have hunfil : msgs.filter (fun m => !(hasFix m)) = [] :=
      List.filter_eq_nil_iff.2 (fun m hm => by simp [h1 m hm])
    have hperm : (List.insertionSort FixOrder (msgs.filter hasFix)).Perm msgs := by
      rw [hfil]
      exact List.perm_insertionSort FixOrder msgs
    have hsorted : (List.insertionSort FixOrder (msgs.filter hasFix)).Pairwise FixOrder :=
      List.sorted_insertionSort FixOrder _
    have h3' : (List.insertionSort FixOrder (msgs.filter hasFix)).Pairwise
        (fun a b => maxEnd (msgEdits a) ≤ minStart (msgEdits b) ∨
          maxEnd (msgEdits b) ≤ minStart (msgEdits a)) :=
      (hperm.pairwise_iff (fun hxy => hxy.symm)).2 h3
    have h2' : ∀ m ∈ List.insertionSort FixOrder (msgs.filter hasFix),
        minStart (msgEdits m) < maxEnd (msgEdits m) :=
      fun m hm => h2 m (hperm.mem_iff.1 hm)
    have hsep : (List.insertionSort FixOrder (msgs.filter hasFix)).Pairwise
        (fun a b => maxEnd (msgEdits a) ≤ minStart (msgEdits b)) := by
      refine (hsorted.and h3').imp_of_mem ?_
      intro a b ha hb hab
      rcases hab with ⟨hle, hor | hor⟩
      · exact hor
      · exfalso
        have hda := h2' a ha
        have hdb := h2' b hb
        unfold FixOrder at hle
        omega
    have hscan := fixScan_accepts_separated
      (List.insertionSort FixOrder (msgs.filter hasFix)) [] [] 0 hsep
      (fun m _ => Nat.zero_le _)
    constructor
    · simp only [applyFixes]
      rw [hscan]
      simpa using hperm.length_eq
    · simp only [applyFixes]
      rw [hscan]
      simp [hunfil]
  · intro m1 m2 hf1 hf2 hord hov1 hov2
    have hfil : List.filter hasFix [m1, m2] = [m1, m2] := by
      simp [List.filter, hf1, hf2]
    have hunfil : List.filter (fun m => !(hasFix m)) [m1, m2] = [] := by
      simp [List.filter, hf1, hf2]
    have hsort : List.insertionSort FixOrder [m1, m2] = [m1, m2] := by
      simp only [List.insertionSort, List.orderedInsert]
      rw [if_pos hord]
    have hscan : fixScan 0 [] [] [m1, m2] = ([m1], [m2]) := by
      simp only [fixScan]
      rw [if_pos (Nat.zero_le _), if_neg hov1]
      simp
    constructor
    · simp only [applyFixes, hfil, hsort]
      rw [hscan]
    · simp only [applyFixes, hfil, hunfil, hsort]
      rw [hscan]
      simp

theorem applyFixes_frontier_scan_witness :
    ((applyFixes "hello world"
        [({ fix := some [⟨0, 2, "x"⟩] } : Message), ({ fix := some [⟨3, 5, "y"⟩] } : Message)]
      ).fixesApplied.length =
      ([({ fix := some [⟨0, 2, "x"⟩] } : Message), ({ fix := some [⟨3, 5, "y"⟩] } : Message)]).length ∧
     (applyFixes "hello world"
        [({ fix := some [⟨0, 2, "x"⟩] } : Message), ({ fix := some [⟨3, 5, "y"⟩] } : Message)]
      ).remainingErrorMessages = []) ∧
    ((applyFixes "hello world"
        [({ fix := some [⟨0, 4, "u"⟩] } : Message), ({ fix := some [⟨2, 6, "v"⟩] } : Message)]
      ).fixesApplied = [({ fix := some [⟨0, 4, "u"⟩] } : Message)] ∧
     (applyFixes "hello world"
        [({ fix := some [⟨0, 4, "u"⟩] } : Message), ({ fix := some [⟨2, 6, "v"⟩] } : Message)]
      ).remainingErrorMessages = [({ fix := some [⟨2, 6, "v"⟩] } : Message)]) :=
  ⟨(applyFixes_frontier_scan "hello world").1
      [{ fix := some [⟨0, 2, "x"⟩] }, { fix := some [⟨3, 5, "y"⟩] }]
      (by decide) (by decide) (by decide),
   (applyFixes_frontier_scan "hello world").2
      { fix := some [⟨0, 4, "u"⟩] } { fix := some [⟨2, 6, "v"⟩] }
      (by decide) (by decide) (by decide) (by decide) (by decide)⟩

/-- C4 counterexample: with degenerate (insertion-only) edit sets the
unconditional claim fails. The two diagnostics below both carry an edit and
their edit ranges are pairwise non-overlapping — the insertion's empty range
[3, 3) lies entirely at or before the replacement's start ([3, 5)), so
`maxEnd ≤ minStart` holds one way and the ranges share no position — yet the
scan accepts only the replacement: the applied count is 1, not 2, and the
insertion stays in the remaining list. -/
theorem applyFixes_rejects_separated_insertion :
    hasFix ({ fix := some [⟨3, 5, "r"⟩] } : Message) = true ∧
    hasFix ({ fix := some [⟨3, 3, "i"⟩] } : Message) = true ∧
    maxEnd (msgEdits ({ fix := some [⟨3, 3, "i"⟩] } : Message)) ≤
      minStart (msgEdits ({ fix := some [⟨3, 5, "r"⟩] } : Message)) ∧
    (applyFixes "0123456789"
        [({ fix := some [⟨3, 5, "r"⟩] } : Message), ({ fix := some [⟨3, 3, "i"⟩] } : Message)]
      ).fixesApplied = [({ fix := some [⟨3, 5, "r"⟩] } : Message)] ∧
    (applyFixes "0123456789"
        [({ fix := some [⟨3, 5, "r"⟩] } : Message), ({ fix := some [⟨3, 3, "i"⟩] } : Message)]
      ).remainingErrorMessages = [({ fix := some [⟨3, 3, "i"⟩] } : Message)] ∧
    (applyFixes "0123456789"
        [({ fix := some [⟨3, 5, "r"⟩] } : Message), ({ fix := some [⟨3, 3, "i"⟩] } : Message)]
      ).fixesApplied.length ≠ 2 := by
  decide

/-- C7: when a rule reports a diagnostic carrying a fix while the rule's own
meta lacks the `fixable` property, the fix is discarded (the pushed
diagnostic carries no edits) and exactly one non-fatal internal warning
naming the rule is emitted before it; the call returns normally so the run
continues, and since neither pushed message carries an edit, no edit from
that fix is ever applied by `lintAndFix`'s fix application. -/
theorem report_fix_without_fixable (e : ErrorObject) (msgs : List Message) (nd : ASTNode)
    (msgText : String) (f : FixAttr)
    (hnode : e.node = some nd) (hmsg : e.message = some msgText) (hne : msgText ≠ "")
    (hfix : e.fix = some f) (hmeta : e.ruleMetaFixable = false) :
    report (.obj e) msgs =
      .ok (msgs ++
        [{ ruleName := none, type := some "warning",
           message := (fixIgnoredIssue e.ruleName).message,
           line := -1, column := -1, internal := true, fix := none },
         { ruleName := e.ruleName, type := e.type, message := some msgText,
           line := reportLine (e.location.getD {}) nd,
           column := reportColumn (e.location.getD {}) nd,
           internal := false, fix := none }]) ∧
    (∀ src : String,
      (applyFixes src
        [{ ruleName := none, type := some "warning",
           message := (fixIgnoredIssue e.ruleName).message,
           line := -1, column := -1, internal := true, fix := none },
         { ruleName := e.ruleName, type := e.type, message := some msgText,
           line := reportLine (e.location.getD {}) nd,
           column := reportColumn (e.location.getD {}) nd,
           internal := false, fix := none }]).fixesApplied = []) := by
  constructor
  · simp [report, hnode, hmsg, hne, hfix, hmeta, pushInternal, fixIgnoredIssue]
  · intro src
    simp [applyFixes, hasFix, fixScan]

theorem report_fix_without_fixable_witness :
    report (.obj { ruleName := some "r", ruleId := some "r", type := some "error",
                   node := some ⟨"T", 1, 2⟩, message := some "m",
                   fix := some (.fn [⟨0, 1, "z"⟩]), ruleMetaFixable := false }) [] =
      .ok [{ ruleName := none, type := some "warning",
             message := (fixIgnoredIssue (some "r")).message,
             line := -1, column := -1, internal := true, fix := none },
           { ruleName := some "r", type := some "error", message := some "m",
             line := 1, column := 2, internal := false, fix := none }] ∧
    (∀ src : String,
      (applyFixes src
        [{ ruleName := none, type := some "warning",
           message := (fixIgnoredIssue (some "r")).message,
           line := -1, column := -1, internal := true, fix := none },
         { ruleName := some "r", type := some "error", message := some "m",
           line := 1, column := 2, internal := false, fix := none }]).fixesApplied = []) :=
  report_fix_without_fixable
    { ruleName := some "r", ruleId := some "r", type := some "error",
      node := some ⟨"T", 1, 2⟩, message := some "m",
      fix := some (.fn [⟨0, 1, "z"⟩]), ruleMetaFixable := false }
    [] ⟨"T", 1, 2⟩ "m" (.fn [⟨0, 1, "z"⟩]) rfl rfl (by decide) rfl rfl

/-- C10: `lint` never mutates the caller's config argument: the config is
deep-copied before rules and options are resolved and every later
configuration write targets the copy, so the caller-visible config after the
call equals the one passed in, whether the call returns or raises. -/
theorem lint_caller_config_untouched (reg : Registry) (src : SourceInput) (config : ConfigArg)
    (noReset : Bool) (p : Except String Unit) (ev : List TraversalEvent) (st : SoliumState) :
    (lint reg src config noReset p ev st).callerConfig = config := by
  unfold lint
  cases hd : decodeSource src with
  | none => rfl
  | some s =>
    dsimp only
    split
    · rfl
    · cases config <;> rfl

mutual
theorem traverseNode_unmutated (n : SNode) (p : Option SNode) :
    (traverseNode n p).1 = n ∧
    (∀ v : NodeView, TraceEvent.leave v ∈ (traverseNode n p).2 → v.parentField = none) ∧
    (∀ v : NodeView, TraceEvent.enter v ∈ (traverseNode n p).2 →
      (v.node = n ∧ v.parentField = p) ∨
      ∃ q, v.parentField = some q ∧ v.node ∈ q.childList) := by
  cases n with
  | mk t cs =>
    obtain ⟨h1, h2, h3⟩ := traverseChildren_unmutated cs (SNode.mk t cs)
    refine ⟨?_, ?_, ?_⟩
    · simp [traverseNode, h1]
    · intro v hv
      simp only [traverseNode, List.mem_cons, List.mem_append, List.mem_singleton,
        List.not_mem_nil, or_false] at hv
      rcases hv with (hv | hv) | hv
      · exact absurd hv (by simp)
      · exact h2 v hv
      · injection hv with hv
        rw [hv]
    · intro v hv
      simp only [traverseNode, List.mem_cons, List.mem_append, List.mem_singleton,
        List.not_mem_nil, or_false] at hv
      rcases hv with (hv | hv) | hv
      · injection hv with hv
        rw [hv]
        exact Or.inl ⟨rfl, rfl⟩
      · rcases h3 v hv with ⟨hin, hpf⟩ | ⟨q, hq, hin⟩
        · exact Or.inr ⟨SNode.mk t cs, hpf, by simpa [SNode.childList] using hin⟩
        · exact Or.inr ⟨q, hq, hin⟩
      · exact absurd hv (by simp)

theorem traverseChildren_unmutated (cs : List SNode) (parent : SNode) :
    (traverseChildren cs parent).1 = cs ∧
    (∀ v : NodeView, TraceEvent.leave v ∈ (traverseChildren cs parent).2 →
      v.parentField = none) ∧
    (∀ v : NodeView, TraceEvent.enter v ∈ (traverseChildren cs parent).2 →
      (v.node ∈ cs ∧ v.parentField = some parent) ∨
      ∃ q, v.parentField = some q ∧ v.node ∈ q.childList) := by
  cases cs with
  | nil => exact ⟨rfl, by intro v hv; simp [traverseChildren] at hv,
      by intro v hv; simp [traverseChildren] at hv⟩
  | cons c rest =>
    obtain ⟨hc1, hc2, hc3⟩ := traverseNode_unmutated c (some parent)
    obtain ⟨hr1, hr2, hr3⟩ := traverseChildren_unmutated rest parent
    refine ⟨?_, ?_, ?_⟩
    · simp [traverseChildren, hc1, hr1]
    · intro v hv
      simp only [traverseChildren, List.mem_append] at hv
      rcases hv with hv | hv
      · exact hc2 v hv
      · exact hr2 v hv
    · intro v hv
      simp only [traverseChildren, List.mem_append] at hv
      rcases hv with hv | hv
      · rcases hc3 v hv with ⟨hn, hpf⟩ | ⟨q, hq, hin⟩
        · exact Or.inl ⟨by rw [hn]; exact List.mem_cons_self c rest, hpf⟩
        · exact Or.inr ⟨q, hq, hin⟩
      · rcases hr3 v hv with ⟨hn, hpf⟩ | ⟨q, hq, hin⟩
        · exact Or.inl ⟨List.mem_cons_of_mem c hn, hpf⟩
        · exact Or.inr ⟨q, hq, hin⟩
end

/-- C8 (amended): the traversal driver supplies the immediate parent by
transiently writing the `parent` attribute onto the node delivered to each
enter notification — the root's enter carries the driver's parent argument,
every other enter carries exactly the node's actual parent — and deletes it
again immediately after the notification, before the children are visited;
consequently every leave notification sees the node without a parent
attribute, and the tree standing after the traversal equals the parsed
tree (no lasting mutation). -/
theorem traversal_transient_parent (n : SNode) (p : Option SNode) :
    (traverseNode n p).1 = n ∧
    (∀ v : NodeView, TraceEvent.leave v ∈ (traverseNode n p).2 → v.parentField = none) ∧
    (∀ v : NodeView, TraceEvent.enter v ∈ (traverseNode n p).2 →
      (v.node = n ∧ v.parentField = p) ∨
      ∃ q, v.parentField = some q ∧ v.node ∈ q.childList) :=
  traverseNode_unmutated n p

theorem traversal_transient_parent_witness :
    (traverseNode (SNode.mk "Program" [SNode.mk "Stmt" []]) none).1 =
      SNode.mk "Program" [SNode.mk "Stmt" []] ∧
    ({ node := SNode.mk "Stmt" [], parentField := none } : NodeView).parentField = none :=
  ⟨(traversal_transient_parent (SNode.mk "Program" [SNode.mk "Stmt" []]) none).1,
   (traversal_transient_parent (SNode.mk "Program" [SNode.mk "Stmt" []]) none).2.1
     { node := SNode.mk "Stmt" [], parentField := none }
     (by simp [traverseNode, traverseChildren])⟩

/-- C8 counterexample: the traversal driver does write a field of parsed
nodes: on the concrete two-node tree below, the enter notification for the
child delivers the node with its `parent` attribute set to the root, so it
is not the case that no field of the node is ever written by the driver. -/
theorem traversal_writes_parent_field :
    ¬ (∀ v : NodeView,
        TraceEvent.enter v ∈ (lintTraversal (SNode.mk "Program" [SNode.mk "Stmt" []])).2 →
        v.parentField = none) := by
  intro h
  have hmem : TraceEvent.enter
      { node := SNode.mk "Stmt" [],
        parentField := some (SNode.mk "Program" [SNode.mk "Stmt" []]) } ∈
      (lintTraversal (SNode.mk "Program" [SNode.mk "Stmt" []])).2 := by
    simp [lintTraversal, traverseNode, traverseChildren]
  have := h _ hmem
  simp at this

end Solium


